import Mathlib

/-!
Shallow embedding of the zapcl Cloud Logging core for zap
(`core.go`, `source.go`): severity mapping, the record `Core`
(Check / Write / Sync / With / clone), flush-error classification,
core construction with resource and initial fields, and the
source-location field encoder.

External collaborators (the byte-level behaviour of the zapcore JSON encoder, namely
`EncodeEntry`, the write/flush outcomes of the sink, the resource detector
and the runtime symbol resolver) are modelled as explicit parameters;
mutation of the shared encoder and sink effects are made explicit by
state passing and an effect trace.
-/

namespace Zapcl

/-- Log levels of the zap front-end (`zapcore.Level`, an int8). -/
inductive Level where
  | debug
  | info
  | warn
  | error
  | dpanic
  | panicLvl
  | fatal
deriving DecidableEq, Fintype, Repr

/-- Numeric value of a `zapcore.Level` (DebugLevel = -1 … FatalLevel = 5). -/
def Level.toInt : Level → Int
  | .debug => -1
  | .info => 0
  | .warn => 1
  | .error => 2
  | .dpanic => 3
  | .panicLvl => 4
  | .fatal => 5

/-- Cloud Logging severity enumeration (`logtypepb.LogSeverity`);
`DEFAULT` is the zero value a Go map lookup yields for a missing key. -/
inductive Severity where
  | DEFAULT
  | DEBUG
  | INFO
  | WARNING
  | ERROR
  | CRITICAL
  | ALERT
  | EMERGENCY
deriving DecidableEq, Fintype, Repr

/-- Enumerant name, as produced by `LogSeverity.Enum().String()`. -/
def Severity.toStr : Severity → String
  | .DEFAULT => "DEFAULT"
  | .DEBUG => "DEBUG"
  | .INFO => "INFO"
  | .WARNING => "WARNING"
  | .ERROR => "ERROR"
  | .CRITICAL => "CRITICAL"
  | .ALERT => "ALERT"
  | .EMERGENCY => "EMERGENCY"

/-- Entries of the `levelToSeverity` map literal, in source order. -/
def levelSeverityPairs : List (Level × Severity) :=
  [(.debug, .DEBUG),
   (.info, .INFO),
   (.warn, .WARNING),
   (.error, .ERROR),
   (.dpanic, .CRITICAL),
   (.panicLvl, .ALERT),
   (.fatal, .EMERGENCY)]

/-- The `levelToSeverity` Go map: lookup by level key
(`none` models a key missing from the map). -/
def levelToSeverity (lvl : Level) : Option Severity :=
  levelSeverityPairs.lookup lvl

/-- The `levelEncoder` function: appends the string form of
`levelToSeverity[lvl]`, where a missing key yields the zero severity. -/
def levelEncoder (lvl : Level) : String :=
  ((levelToSeverity lvl).getD .DEFAULT).toStr

/-- Go `interface` values stored in the initial-field map (`zap.Any`). -/
inductive GoValue where
  | vNull
  | vStr (s : String)
  | vInt (n : Int)
  | vBool (b : Bool)
deriving DecidableEq, Repr

/-- Payload of the Cloud Logging source-location proto
(`loggingpb.LogEntrySourceLocation`). -/
structure LogEntrySourceLocation where
  file : String
  line : Int
  function : String
deriving DecidableEq, Repr

/-- Value carried by a `zapcore.Field`, restricted to the shapes the
embedded code constructs. `objMarshaler none` models a field built by
`zap.Object` over a nil marshaler pointer. -/
inductive FieldValue where
  | str (s : String)
  | inlineObj (labels : List (String × String))
  | anyVal (v : GoValue)
  | objMarshaler (v : Option LogEntrySourceLocation)
deriving DecidableEq, Repr

/-- A `zapcore.Field`: a key together with its value. -/
structure Field where
  key : String
  value : FieldValue
deriving DecidableEq, Repr

/-- Operating-system error numbers used by `knownSyncError`. -/
inductive Errno where
  | EINVAL
  | ENOTSUP
  | ENOTTY
  | EBADF
  | other (n : Nat)
deriving DecidableEq, Repr

/-- A Go `error` value: a raw errno, a plain message, or a message
wrapping a cause (`fmt.Errorf` with the wrap verb). -/
inductive GoError where
  | errno (e : Errno)
  | simple (msg : String)
  | wrapped (msg : String) (cause : GoError)
deriving DecidableEq, Repr

/-- The `errors.Is` test against a raw errno target: unwraps the
cause chain and compares. -/
def errorsIs : GoError → Errno → Bool
  | .errno e, t => e == t
  | .simple _, _ => false
  | .wrapped _ cause, t => errorsIs cause t

/-- The `knownSyncError` predicate: reports whether the error is one
of the benign errnos a flush on a character device may raise
(EINVAL, ENOTSUP, ENOTTY, EBADF). -/
def knownSyncError (err : GoError) : Bool :=
  errorsIs err .EINVAL || errorsIs err .ENOTSUP ||
    errorsIs err .ENOTTY || errorsIs err .EBADF

/-- A log event (`zapcore.Entry`), reduced to the parts the core
inspects: its level and message. -/
structure Entry where
  level : Level
  message : String
deriving DecidableEq, Repr

/-- The zapcore JSON encoder, as the core observes it: a buffer of
contextual fields added so far, and the byte-level `EncodeEntry`
behaviour (external collaborator) as a function of that buffer, the
entry and the call-site fields. -/
structure Encoder where
  ctx : List Field
  encode : List Field → Entry → List Field → Except GoError (List Nat)

/-- A `Field.AddTo` call on the encoder: appends to the context buffer. -/
def Encoder.addField (enc : Encoder) (f : Field) : Encoder :=
  { enc with ctx := enc.ctx ++ [f] }

/-- Model of `Encoder.Clone`: an independent copy of the context buffer with the
same encoding behaviour. -/
def Encoder.Clone (enc : Encoder) : Encoder :=
  { ctx := enc.ctx, encode := enc.encode }

/-- Model of `EncodeEntry`: serializes the entry and call-site fields against the
current contextual-field buffer. -/
def Encoder.EncodeEntry (enc : Encoder) (ent : Entry) (fields : List Field) :
    Except GoError (List Nat) :=
  enc.encode enc.ctx ent fields

/-- The sink (`zapcore.WriteSyncer`), described by its outcomes:
what error (if any) a write of a given buffer returns, and what error
(if any) a flush returns. -/
structure WriteSyncer where
  writeErr : List Nat → Option GoError
  syncErr : Option GoError

/-- One observable action on the sink. -/
inductive SinkOp where
  | writeOp (buf : List Nat)
  | syncOp
deriving DecidableEq, Repr

/-- The zapcl `Core`: embedded `LevelEnabler` (a `none` models the nil
interface left by `clone`), encoder, sink, accumulated field list, and
the initial-field map. The Go map is modelled as an association list in
iteration order; the nil map is `[]`. -/
structure Core where
  levelEnabler : Option (Level → Bool)
  enc : Encoder
  ws : WriteSyncer
  fields : List Field
  initFields : List (String × GoValue)

/-- Model of `Core.clone`: fresh struct holding a copy of the field list, a
cloned encoder and the shared sink; the `LevelEnabler` and the
initial-field map are left at their zero values. -/
def Core.clone (c : Core) : Core :=
  { levelEnabler := none
    enc := c.enc.Clone
    ws := c.ws
    fields := c.fields
    initFields := [] }

/-- The `addFields` helper: `AddTo` each field onto the encoder. -/
def addFields (enc : Encoder) (fields : List Field) : Encoder :=
  fields.foldl Encoder.addField enc

/-- Model of `Core.With`: clone, then add the given fields to the encoder of the clone. -/
def Core.With (c : Core) (fields : List Field) : Core :=
  let clone := c.clone
  { clone with enc := addFields clone.enc fields }

/-- Model of `Core.Enabled`, the method promoted from the embedded
`LevelEnabler`; calling it through a nil interface (as on a clone) is a
run-time fault, modelled by `none`. -/
def Core.Enabled (c : Core) (lvl : Level) : Option Bool :=
  c.levelEnabler.map (fun enab => enab lvl)

/-- Model of `Core.Check`: if the level of the entry is enabled, add this core to the
checked entry; otherwise return the checked entry unchanged. `none`
models the fault of consulting an absent level filter. -/
def Core.Check (c : Core) (ent : Entry) (ce : List Core) : Option (List Core) :=
  (c.Enabled ent.level).map (fun b => if b then ce ++ [c] else ce)

/-- Model of `Core.Sync`: flush the sink; a benign (`knownSyncError`) failure is
swallowed, any other failure is returned wrapped. The first component
is the trace of sink operations performed. -/
def Core.Sync (c : Core) : List SinkOp × Except GoError Unit :=
  match c.ws.syncErr with
  | some err =>
    if !knownSyncError err then
      ([SinkOp.syncOp], .error (.wrapped "faild to sync logger" err))
    else
      ([SinkOp.syncOp], .ok ())
  | none => ([SinkOp.syncOp], .ok ())

/-- Model of `Core.Write`: add the accumulated fields to the (shared, mutated)
encoder, encode the entry, write the buffer to the sink, and on a
level above ERROR flush, discarding the flush error. Returns the core
with its mutated encoder, the trace of sink operations, and the result. -/
def Core.Write (c : Core) (ent : Entry) (fields : List Field) :
    Core × List SinkOp × Except GoError Unit :=
  let enc1 := addFields c.enc c.fields
  let c1 : Core := { c with enc := enc1 }
  match enc1.EncodeEntry ent fields with
  | .error err => (c1, [], .error (.wrapped "could not encode entry" err))
  | .ok buf =>
    match c.ws.writeErr buf with
    | some err =>
      (c1, [SinkOp.writeOp buf], .error (.wrapped "could not write buf" err))
    | none =>
      if Level.error.toInt < ent.level.toInt then
        (c1, SinkOp.writeOp buf :: (c1.Sync).1, .ok ())
      else
        (c1, [SinkOp.writeOp buf], .ok ())

/-- Contextual fields a `Write` through this core hands to `EncodeEntry`
(the encoder buffer after the accumulated fields are added). -/
def Core.writeCtx (c : Core) : List Field :=
  (addFields c.enc c.fields).ctx

/-- Dispatch of `zapcore.CheckedEntry.Write`: every core the check phase
registered gets the entry written through it. -/
def runCheckedEntry (cores : List Core) (ent : Entry) (fields : List Field) :
    List (Core × List SinkOp × Except GoError Unit) :=
  cores.map (fun core => core.Write ent fields)

/-- The logging pipeline for one core: `Check` against an empty checked
entry, then write the entry through every registered core. -/
def checkThenWrite (c : Core) (ent : Entry) (fields : List Field) :
    Option (List (Core × List SinkOp × Except GoError Unit)) :=
  (c.Check ent []).map (fun cores => runCheckedEntry cores ent fields)

/-- Result of `monitoredresource.Detect` (external collaborator): the
resource type, the log-stream identifier and the resource labels it
marshals inline. -/
structure MonitoredResource where
  type : String
  logID : String
  labels : List (String × String)

/-- The two resource-derived fields built at construction:
`zap.String(res.Type, res.LogID)` followed by `zap.Inline(res)`
(an inline marshaler field has the empty key). -/
def resourceFields (res : MonitoredResource) : List Field :=
  [⟨res.type, .str res.logID⟩, ⟨"", .inlineObj res.labels⟩]

/-- Construction-time options (`Option` in the source; each wraps the
body of the corresponding `optionFunc`). -/
inductive CoreOption where
  | withInitialFields (fields : List (String × GoValue))
  | withWriteSyncer (ws : WriteSyncer)

/-- Application of an option to a core under construction. -/
def CoreOption.apply (c : Core) : CoreOption → Core
  | .withInitialFields fs => { c with initFields := fs }
  | .withWriteSyncer ws => { c with ws := ws }

/-- Lexicographic comparison of strings through their character lists
(the order `sort.Strings` sorts by). -/
def strLeData (a b : String) : Prop := a.data ≤ b.data

instance : DecidableRel strLeData :=
  fun a b => inferInstanceAs (Decidable (a.data ≤ b.data))

instance : IsTotal String strLeData := ⟨fun a b => le_total a.data b.data⟩

instance : IsTrans String strLeData := ⟨fun _ _ _ h₁ h₂ => le_trans h₁ h₂⟩

instance : IsAntisymm String strLeData :=
  ⟨fun a b h₁ h₂ => by
    cases a
    cases b
    exact congrArg String.mk (le_antisymm h₁ h₂)⟩

/-- Model of `sort.Strings`: sorts a key list lexicographically. -/
def sortStrings (l : List String) : List String :=
  List.insertionSort strLeData l

/-- The initial-field block built by `newCore`: the map keys are
collected, sorted, and each key is turned into `zap.Any(k, m[k])` in
sorted order. -/
def initFieldList (initFields : List (String × GoValue)) : List Field :=
  (sortStrings (initFields.map Prod.fst)).map
    (fun k => ⟨k, .anyVal ((initFields.lookup k).getD .vNull)⟩)

/-- The `newCore` constructor: fresh JSON encoder (its byte-level
behaviour `jsonEncode` is the external collaborator), given sink and
level filter, options applied, then the accumulated field list is set
to the resource fields followed, when the initial-field map is
non-empty, by the sorted initial fields. -/
def newCore (jsonEncode : List Field → Entry → List Field → Except GoError (List Nat))
    (res : MonitoredResource) (ws : WriteSyncer) (enab : Level → Bool)
    (opts : List CoreOption) : Core :=
  let core : Core :=
    { levelEnabler := some enab
      enc := { ctx := [], encode := jsonEncode }
      ws := ws
      fields := []
      initFields := [] }
  let core := opts.foldl CoreOption.apply core
  let core := { core with fields := resourceFields res }
  if core.initFields.length > 0 then
    { core with fields := core.fields ++ initFieldList core.initFields }
  else
    core

/-- The stock zapcore core produced by `zapcore.NewCore(enc, ws, enab)`:
it holds only the encoder, the sink and the level filter. -/
structure IOCore where
  levelEnabler : Option (Level → Bool)
  enc : Encoder
  ws : WriteSyncer

/-- Model of `zapcore.NewCore` (external library constructor). -/
def zapcoreNewCore (enc : Encoder) (ws : WriteSyncer)
    (enab : Option (Level → Bool)) : IOCore :=
  { levelEnabler := enab, enc := enc, ws := ws }

/-- The exported `NewCore`: builds the zapcl core, then returns the
stock zapcore core over its encoder, sink and level filter. -/
def NewCore (jsonEncode : List Field → Entry → List Field → Except GoError (List Nat))
    (res : MonitoredResource) (ws : WriteSyncer) (enab : Level → Bool)
    (opts : List CoreOption) : IOCore :=
  let core := newCore jsonEncode res ws enab opts
  zapcoreNewCore core.enc core.ws core.levelEnabler

/-- Model of `Write` on the stock zapcore core: encode against its own encoder
context, write, flush above ERROR with the flush error discarded. -/
def IOCore.Write (c : IOCore) (ent : Entry) (fields : List Field) :
    List SinkOp × Except GoError Unit :=
  match c.enc.EncodeEntry ent fields with
  | .error err => ([], .error err)
  | .ok buf =>
    match c.ws.writeErr buf with
    | some err => ([SinkOp.writeOp buf], .error err)
    | none =>
      if Level.error.toInt < ent.level.toInt then
        ([SinkOp.writeOp buf, SinkOp.syncOp], .ok ())
      else
        ([SinkOp.writeOp buf], .ok ())

/-- Key of the Cloud Logging source-location field. -/
def SourceLocationKey : String := "logging.googleapis.com/sourceLocation"

/-- Model of `strings.TrimPrefix(s, pre)`: drops a leading occurrence of `pre`. -/
def trimPre (s pre : String) : String :=
  if s.startsWith pre then s.drop pre.length else s

/-- The `newSource` constructor: for `ok = false` it returns the nil
pointer; otherwise it resolves the program counter through the runtime
symbol resolver (external collaborator `funcForPC`), strips the GOPATH
source prefix from the resolved name (empty when unresolved), and packs
file, line and function. -/
def newSource (funcForPC : Nat → Option String) (gopath : String)
    (pc : Nat) (file : String) (line : Int) (ok : Bool) :
    Option LogEntrySourceLocation :=
  if !ok then
    none
  else
    let function :=
      match funcForPC pc with
      | some name => trimPre name (gopath ++ "/src" ++ "/")
      | none => ""
    some { file := file, line := line, function := function }

/-- The `SourceLocation` field constructor:
`zap.Object(SourceLocationKey, newSource(...))` — the field is built
unconditionally, around whatever pointer `newSource` returned. -/
def SourceLocation (funcForPC : Nat → Option String) (gopath : String)
    (pc : Nat) (file : String) (line : Int) (ok : Bool) : Field :=
  ⟨SourceLocationKey, .objMarshaler (newSource funcForPC gopath pc file line ok)⟩

/-- Value as it appears in the emitted JSON object: a primitive, or a
nested object of primitives. -/
inductive EmittedValue where
  | prim (v : GoValue)
  | obj (kvs : List (String × GoValue))
deriving DecidableEq, Repr

/-- Model of `MarshalLogObject` on the source-location payload: emits file, line
and function. Invoked on the nil pointer it reads a field of nil — a
run-time fault, modelled by `none`. -/
def marshalSourceLocation : Option LogEntrySourceLocation →
    Option (List (String × GoValue))
  | none => none
  | some loc =>
    some [("file", .vStr loc.file), ("line", .vInt loc.line),
      ("function", .vStr loc.function)]

/-- Model of `Field.AddTo` on a JSON object encoder: the key/value pairs the
field contributes to the output object, or `none` when encoding the
field faults (nil object marshaler). -/
def encodeField (f : Field) : Option (List (String × EmittedValue)) :=
  match f.value with
  | .str s => some [(f.key, .prim (.vStr s))]
  | .anyVal v => some [(f.key, .prim v)]
  | .inlineObj labels => some (labels.map (fun kv => (kv.1, .prim (.vStr kv.2))))
  | .objMarshaler v =>
    match marshalSourceLocation v with
    | none => none
    | some kvs => some [(f.key, .obj kvs)]

/-! Helper lemmas. -/

theorem addFields_ctx (enc : Encoder) (fs : List Field) :
    (addFields enc fs).ctx = enc.ctx ++ fs := by
  induction fs generalizing enc with
  | nil => simp [addFields]
  | cons f t ih =>
    show (addFields (enc.addField f) t).ctx = _
    rw [ih]
    simp [Encoder.addField]

theorem addFields_encode (enc : Encoder) (fs : List Field) :
    (addFields enc fs).encode = enc.encode := by
  induction fs generalizing enc with
  | nil => rfl
  | cons f t ih =>
    show (addFields (enc.addField f) t).encode = _
    rw [ih]
    rfl

theorem sync_trace (c : Core) : (c.Sync).1 = [SinkOp.syncOp] := by
  unfold Core.Sync
  cases h : c.ws.syncErr with
  | none => rfl
  | some e => cases hk : knownSyncError e <;> simp [hk]

theorem lookup_perm {β : Type} {l₁ l₂ : List (String × β)} (p : l₁.Perm l₂)
    (nd : (l₁.map Prod.fst).Nodup) (k : String) :
    l₁.lookup k = l₂.lookup k := by
  induction p with
  | nil => rfl
  | cons x p ih =>
    simp only [List.map_cons, List.nodup_cons] at nd
    cases hx : k == x.1 <;> simp [List.lookup, hx, ih nd.2]
  | swap x y l =>
    simp only [List.map_cons, List.nodup_cons, List.mem_cons] at nd
    have hxy : y.1 ≠ x.1 := fun h => nd.1 (Or.inl h)
    cases hy : k == y.1 <;> cases hx : k == x.1 <;>
      simp [List.lookup, hx, hy]
    exact absurd ((eq_of_beq hy).symm.trans (eq_of_beq hx)) hxy
  | trans p₁ p₂ ih₁ ih₂ =>
    exact (ih₁ nd).trans (ih₂ ((p₁.map Prod.fst).nodup_iff.mp nd))

theorem sortStrings_eq_of_perm {l₁ l₂ : List String} (p : l₁.Perm l₂) :
    sortStrings l₁ = sortStrings l₂ :=
  List.eq_of_perm_of_sorted
    ((List.perm_insertionSort _ l₁).trans (p.trans (List.perm_insertionSort _ l₂).symm))
    (List.sorted_insertionSort _ l₁) (List.sorted_insertionSort _ l₂)

theorem initFieldList_eq_of_perm {l₁ l₂ : List (String × GoValue)}
    (p : l₁.Perm l₂) (nd : (l₁.map Prod.fst).Nodup) :
    initFieldList l₁ = initFieldList l₂ := by
  unfold initFieldList
  rw [sortStrings_eq_of_perm (p.map Prod.fst)]
  have hfun : (fun k => (⟨k, .anyVal ((l₁.lookup k).getD .vNull)⟩ : Field))
      = (fun k => (⟨k, .anyVal ((l₂.lookup k).getD .vNull)⟩ : Field)) := by
    funext k
    rw [lookup_perm p nd k]
  rw [hfun]

theorem foldl_apply_enc (opts : List CoreOption) (c : Core) :
    ((opts.foldl CoreOption.apply c).enc = c.enc) ∧
    ((opts.foldl CoreOption.apply c).levelEnabler = c.levelEnabler) := by
  induction opts generalizing c with
  | nil => exact ⟨rfl, rfl⟩
  | cons o t ih =>
    cases o <;> simpa [CoreOption.apply] using ih _

/-! Sample objects used by the closed witness statements. -/

def sampleEncode : List Field → Entry → List Field → Except GoError (List Nat) :=
  fun _ _ _ => .ok [1]

def sampleEncoder : Encoder := { ctx := [], encode := sampleEncode }

def sampleWS : WriteSyncer := { writeErr := fun _ => none, syncErr := none }

def badSyncWS : WriteSyncer :=
  { writeErr := fun _ => none, syncErr := some (.errno (.other 5)) }

def disabledCore : Core :=
  { levelEnabler := some (fun _ => false)
    enc := sampleEncoder
    ws := sampleWS
    fields := []
    initFields := [] }

def syncErrCore : Core :=
  { levelEnabler := some (fun _ => true)
    enc := sampleEncoder
    ws := badSyncWS
    fields := []
    initFields := [] }

def failEncode : List Field → Entry → List Field → Except GoError (List Nat) :=
  fun _ _ _ => .error (.simple "marshal failure")

def failEncCore : Core :=
  { levelEnabler := some (fun _ => true)
    enc := { ctx := [], encode := failEncode }
    ws := sampleWS
    fields := []
    initFields := [] }

def sampleRes : MonitoredResource :=
  { type := "gce_instance", logID := "my-log", labels := [("project_id", "p")] }

/-! Claims. -/

/-- C1: for an entry whose level the filter of the core rejects, the check
phase registers no core, so the pipeline performs no write through it:
the core — in particular its encoder field buffer — is returned
untouched and no sink operation happens. -/
theorem write_disabled_noop (c : Core) (ent : Entry) (fields : List Field)
    (enab : Level → Bool) (henab : c.levelEnabler = some enab)
    (hdis : enab ent.level = false) :
    (∀ ce, c.Check ent ce = some ce) ∧ checkThenWrite c ent fields = some [] := by
  constructor
  · intro ce
    simp [Core.Check, Core.Enabled, henab, hdis]
  · simp [checkThenWrite, Core.Check, Core.Enabled, henab, hdis, runCheckedEntry]

/-- Witness for C1 at a concrete disabled core and entry. -/
theorem write_disabled_noop_witness :
    disabledCore.Check { level := .info, message := "m" } [] = some [] ∧
    checkThenWrite disabledCore { level := .info, message := "m" } [] = some [] :=
  ⟨(write_disabled_noop disabledCore { level := .info, message := "m" } []
      (fun _ => false) rfl rfl).1 [],
   (write_disabled_noop disabledCore { level := .info, message := "m" } []
      (fun _ => false) rfl rfl).2⟩

/-- C2: `Sync` succeeds exactly when the flush succeeds or fails with one
of the four benign errnos; any other flush error comes back wrapped. -/
theorem sync_benign_errors (c : Core) :
    ((c.Sync).2 = .ok () ↔
      c.ws.syncErr = none ∨ ∃ e, c.ws.syncErr = some e ∧ knownSyncError e = true) ∧
    (∀ e, c.ws.syncErr = some e → knownSyncError e = false →
      (c.Sync).2 = .error (.wrapped "faild to sync logger" e)) := by
  unfold Core.Sync
  cases h : c.ws.syncErr with
  | none => simp
  | some e => cases hk : knownSyncError e <;> simp [hk]

/-- Witness for C2: a flush failing with an unrecognized errno is
returned wrapped. -/
theorem sync_benign_errors_witness :
    (syncErrCore.Sync).2
      = .error (.wrapped "faild to sync logger" (.errno (.other 5))) :=
  (sync_benign_errors syncErrCore).2 _ rfl rfl

/-- C6: the level-to-severity map sends the seven levels to
DEBUG, INFO, WARNING, ERROR, CRITICAL, ALERT, EMERGENCY respectively,
leaves no level unmapped, and is injective. -/
theorem levelToSeverity_total_injective :
    (levelToSeverity .debug = some .DEBUG ∧
     levelToSeverity .info = some .INFO ∧
     levelToSeverity .warn = some .WARNING ∧
     levelToSeverity .error = some .ERROR ∧
     levelToSeverity .dpanic = some .CRITICAL ∧
     levelToSeverity .panicLvl = some .ALERT ∧
     levelToSeverity .fatal = some .EMERGENCY ∧
     ∀ l, (levelToSeverity l).isSome) ∧
    ∀ l₁ l₂, levelToSeverity l₁ = levelToSeverity l₂ → l₁ = l₂ := by
  decide

/-- Witness for C6: the injectivity component applied at a concrete
pair of levels. -/
theorem levelToSeverity_total_injective_witness : Level.warn = Level.warn :=
  levelToSeverity_total_injective.2 .warn .warn rfl

/-- C10: the core `With` returns has no level filter: `clone` copies
only the encoder, the sink and the field list, so the derived
level enabler and initial-field map are unset and its enabled/check
operations consult an absent filter. -/
theorem with_drops_levelEnabler (c : Core) (fs : List Field) (lvl : Level)
    (ent : Entry) (ce : List Core) :
    (c.With fs).levelEnabler = none ∧
    (c.With fs).initFields = [] ∧
    (c.With fs).Enabled lvl = none ∧
    (c.With fs).Check ent ce = none := by
  simp [Core.With, Core.clone, Core.Enabled, Core.Check]

/-- C3: the result of `Write` never depends on the flush outcome — any
change to the flush behaviour of the sink leaves it unchanged — and on a
level above ERROR, after a successful encode and sink write, `Write`
flushes right after the write and still returns success. -/
theorem write_sync_discarded (c : Core) (ent : Entry) (fs : List Field) :
    (∀ s, (Core.Write { c with ws := { c.ws with syncErr := s } } ent fs).2.2
        = (c.Write ent fs).2.2) ∧
    (Level.error.toInt < ent.level.toInt →
      ∀ buf, (addFields c.enc c.fields).EncodeEntry ent fs = .ok buf →
        c.ws.writeErr buf = none →
        (c.Write ent fs).2.1 = [SinkOp.writeOp buf, SinkOp.syncOp] ∧
        (c.Write ent fs).2.2 = .ok ()) := by
  constructor
  · intro s
    unfold Core.Write
    cases h : (addFields c.enc c.fields).EncodeEntry ent fs with
    | error err => simp [h]
    | ok buf =>
      cases hw : c.ws.writeErr buf with
      | some err => simp [h, hw]
      | none =>
        by_cases hl : Level.error.toInt < ent.level.toInt <;> simp [h, hw, hl]
  · intro hl buf henc hw
    unfold Core.Write
    simp [henc, hw, hl, sync_trace]

/-- Witness for C3: a fatal-level write over a sink whose flush fails
with an unknown error still writes, flushes, and returns success. -/
theorem write_sync_discarded_witness :
    (syncErrCore.Write { level := .fatal, message := "f" } []).2.1
        = [SinkOp.writeOp [1], SinkOp.syncOp] ∧
    (syncErrCore.Write { level := .fatal, message := "f" } []).2.2 = .ok () :=
  (write_sync_discarded syncErrCore _ []).2 (by decide) [1] rfl rfl

/-- C4: `With` derives a core that shares the sink, copies the field
list, and clones the encoder extending its buffer with the new fields:
writes through the derived core pass a context carrying the new fields
while the write context of the original core is exactly what it was
before. -/
theorem with_no_cross_contamination (c : Core) (fs : List Field) :
    (c.With fs).ws = c.ws ∧
    (c.With fs).fields = c.fields ∧
    (c.With fs).enc.ctx = c.enc.ctx ++ fs ∧
    (c.With fs).enc.encode = c.enc.encode ∧
    (c.With fs).writeCtx = c.enc.ctx ++ fs ++ c.fields ∧
    List.IsInfix fs ((c.With fs).writeCtx) ∧
    c.writeCtx = c.enc.ctx ++ c.fields := by
  refine ⟨rfl, rfl, ?_, ?_, ?_, ?_, ?_⟩
  · simp [Core.With, Core.clone, Encoder.Clone, addFields_ctx]
  · simp [Core.With, Core.clone, Encoder.Clone, addFields_encode]
  · simp [Core.writeCtx, Core.With, Core.clone, Encoder.Clone, addFields_ctx]
  · refine ⟨c.enc.ctx, c.fields, ?_⟩
    simp [Core.writeCtx, Core.With, Core.clone, Encoder.Clone, addFields_ctx]
  · simp [Core.writeCtx, addFields_ctx]

/-- C5: a core built with an initial-field map accumulates the
resource-type field, then the inlined resource labels, then the initial
fields in sorted key order; the key order is a sorted permutation of
the map keys, and the result is independent of the iteration order of
the map. -/
theorem newCore_initial_field_order
    (jsonEncode : List Field → Entry → List Field → Except GoError (List Nat))
    (res : MonitoredResource) (ws : WriteSyncer) (enab : Level → Bool)
    (l₁ l₂ : List (String × GoValue)) (hpm : l₁.Perm l₂)
    (hnd : (l₁.map Prod.fst).Nodup) (hne : l₁ ≠ []) :
    (newCore jsonEncode res ws enab [.withInitialFields l₁]).fields
        = resourceFields res ++ initFieldList l₁ ∧
    ((initFieldList l₁).map Field.key) = sortStrings (l₁.map Prod.fst) ∧
    List.Sorted strLeData ((initFieldList l₁).map Field.key) ∧
    ((initFieldList l₁).map Field.key).Perm (l₁.map Prod.fst) ∧
    (newCore jsonEncode res ws enab [.withInitialFields l₁]).fields
        = (newCore jsonEncode res ws enab [.withInitialFields l₂]).fields := by
  have hkeys : (initFieldList l₁).map Field.key = sortStrings (l₁.map Prod.fst) := by
    simp [initFieldList, List.map_map, Function.comp_def]
  have hbuild : ∀ l : List (String × GoValue), l ≠ [] →
      (newCore jsonEncode res ws enab [.withInitialFields l]).fields
        = resourceFields res ++ initFieldList l := by
    intro l hl
    unfold newCore
    simp [CoreOption.apply, List.length_pos.mpr hl]
  have hne₂ : l₂ ≠ [] := by
    intro h
    exact hne (List.eq_nil_of_length_eq_zero (by simp [hpm.length_eq, h]))
  refine ⟨hbuild l₁ hne, hkeys, ?_, ?_, ?_⟩
  · rw [hkeys]
    exact List.sorted_insertionSort _ _
  · rw [hkeys]
    exact List.perm_insertionSort _ _
  · rw [hbuild l₁ hne, hbuild l₂ hne₂, initFieldList_eq_of_perm hpm hnd]

/-- Witness for C5 at initial fields b then a: both iteration orders
build the same field list, and the initial fields come out with key a
before key b. -/
theorem newCore_initial_field_order_witness :
    (newCore sampleEncode sampleRes sampleWS (fun _ => true)
        [.withInitialFields [("b", .vInt 1), ("a", .vInt 2)]]).fields
      = (newCore sampleEncode sampleRes sampleWS (fun _ => true)
        [.withInitialFields [("a", .vInt 2), ("b", .vInt 1)]]).fields ∧
    initFieldList [("b", .vInt 1), ("a", .vInt 2)]
      = [⟨"a", .anyVal (.vInt 2)⟩, ⟨"b", .anyVal (.vInt 1)⟩] :=
  ⟨(newCore_initial_field_order sampleEncode sampleRes sampleWS (fun _ => true)
      [("b", .vInt 1), ("a", .vInt 2)] [("a", .vInt 2), ("b", .vInt 1)]
      (List.Perm.swap ("a", GoValue.vInt 2) ("b", GoValue.vInt 1) [])
      (by decide) (by decide)).2.2.2.2,
   by decide⟩

/-- C7: evaluation at the failing input. With ok = false, `newSource`
returns the nil pointer but `SourceLocation` still builds a field keyed
`SourceLocationKey` around it, and encoding that field faults on the
nil marshaler instead of omitting the field; with ok = true and an
unresolvable program counter, the emitted object carries file and line
with an empty function name. -/
theorem sourceLocation_nil_marshaler :
    (SourceLocation (fun _ => none) "/go" 0 "" 0 false).key = SourceLocationKey ∧
    newSource (fun _ => none) "/go" 0 "" 0 false = none ∧
    encodeField (SourceLocation (fun _ => none) "/go" 0 "" 0 false) = none ∧
    SourceLocation (fun _ => none) "/go" 7 "main.go" 42 true
      = ⟨SourceLocationKey, .objMarshaler (some ⟨"main.go", 42, ""⟩)⟩ ∧
    encodeField (SourceLocation (fun _ => none) "/go" 7 "main.go" 42 true)
      = some [(SourceLocationKey,
          .obj [("file", .vStr "main.go"), ("line", .vInt 42),
            ("function", .vStr "")])] :=
  ⟨rfl, rfl, rfl, rfl, rfl⟩

/-- C8: when encoding the entry fails, `Write` returns the encode error
wrapped and performs no sink operation at all. -/
theorem write_encode_error (c : Core) (ent : Entry) (fs : List Field)
    (err : GoError)
    (henc : (addFields c.enc c.fields).EncodeEntry ent fs = .error err) :
    c.Write ent fs =
      ({ c with enc := addFields c.enc c.fields }, [],
        .error (.wrapped "could not encode entry" err)) := by
  unfold Core.Write
  simp [henc]

/-- Witness for C8 at a concrete core whose encoder fails. -/
theorem write_encode_error_witness :
    failEncCore.Write { level := .info, message := "m" } [] =
      ({ failEncCore with enc := addFields failEncCore.enc failEncCore.fields },
        [], .error (.wrapped "could not encode entry" (.simple "marshal failure"))) :=
  write_encode_error failEncCore _ [] _ rfl

/-- C9: the exported `NewCore` returns exactly the stock zapcore core
over the encoder, sink and level filter of the built core; the
contextual buffer of that encoder is empty (the accumulated resource and initial
fields — at least two of them — live only in the discarded `Core`), so
writes through the returned core encode against an empty context. -/
theorem NewCore_discards_accumulated_fields
    (jsonEncode : List Field → Entry → List Field → Except GoError (List Nat))
    (res : MonitoredResource) (ws : WriteSyncer) (enab : Level → Bool)
    (opts : List CoreOption) :
    NewCore jsonEncode res ws enab opts =
      zapcoreNewCore (newCore jsonEncode res ws enab opts).enc
        (newCore jsonEncode res ws enab opts).ws
        (newCore jsonEncode res ws enab opts).levelEnabler ∧
    (NewCore jsonEncode res ws enab opts).enc.ctx = [] ∧
    (∀ ent fs, (NewCore jsonEncode res ws enab opts).enc.EncodeEntry ent fs
        = jsonEncode [] ent fs) ∧
    2 ≤ (newCore jsonEncode res ws enab opts).fields.length := by
  have henc : (newCore jsonEncode res ws enab opts).enc
      = { ctx := [], encode := jsonEncode } := by
    unfold newCore
    have h := (foldl_apply_enc opts
      { levelEnabler := some enab
        enc := { ctx := [], encode := jsonEncode }
        ws := ws
        fields := []
        initFields := [] }).1
    dsimp only
    split <;> simpa using h
  refine ⟨rfl, ?_, ?_, ?_⟩
  · show (newCore jsonEncode res ws enab opts).enc.ctx = []
    rw [henc]
  · intro ent fs
    show (newCore jsonEncode res ws enab opts).enc.EncodeEntry ent fs = _
    rw [henc]
    rfl
  · unfold newCore
    dsimp only
    split <;> simp [resourceFields]

end Zapcl
